import Mathlib

/-!
Shallow embedding of `src/main.py`, a minimal stack-based bytecode VM:
a lexer (`lex`), an executor (`Vm.execute` / `Vm.execute_op`, embedded
here as the fueled function `step` with one `Mode` per loop of the
Python source), and a pickle-style save/load envelope
(`save_to_file` / `load_from_file`).

Modelling decisions (all driven by the source, not the spec):
* `Op` is Python's `IntEnum`: every opcode carries an integer encoding
  (PUSH=1 .. DUMP=9, from `auto()`), and Python `==` between an `Op`
  and a number compares those integers.  Program slots and stack cells
  are therefore one type `PyVal` (int / float / bool / op), and all
  comparisons the source performs with `==` / `in` go through `pyEq`,
  which compares the Python numeric value (`PyVal.toRat`).
* Python floats are modelled as rationals (`ℚ`): no claim in scope
  depends on rounding, infinities or NaN.
* Python exceptions are modelled by `Res.err`, carrying the VM state
  and the output produced up to the raise (list mutations performed
  before the exception persist, exactly as in Python).
* Divergence (the source's `while cond:` loop never re-reads `cond`)
  is handled with a fuel parameter: `none` means "did not finish
  within the given fuel".
-/

/-- The opcode enum of `main.py` (`class Op(IntEnum)`). -/
inductive Op where
  | PUSH | ADD | EQUALS | IF | ELSE | WHILE | END | COUNT | DUMP
deriving DecidableEq, Repr

/-- The integer value `auto()` assigns to each enum member, in source order. -/
def Op.toInt : Op → Int
  | .PUSH => 1
  | .ADD => 2
  | .EQUALS => 3
  | .IF => 4
  | .ELSE => 5
  | .WHILE => 6
  | .END => 7
  | .COUNT => 8
  | .DUMP => 9

/-- A Python value as it can appear in a program slot or on the stack:
an opcode object, an int, a float (modelled as `ℚ`), or a bool. -/
inductive PyVal where
  | op (o : Op)
  | int (n : Int)
  | float (q : ℚ)
  | bool (b : Bool)
deriving DecidableEq, Repr

/-- The numeric value Python's `==` compares: `IntEnum` members compare as
their integer encoding, `True`/`False` as `1`/`0`, ints and floats by value. -/
def PyVal.toRat : PyVal → ℚ
  | .op o => (o.toInt : ℚ)
  | .int n => (n : ℚ)
  | .float q => q
  | .bool b => if b then 1 else 0

/-- Python `==` on the values that occur in this program (numeric comparison). -/
def pyEq (a b : PyVal) : Bool := a.toRat = b.toRat

/-- Comparison of a program slot against an opcode, as in `self.current_op() == Op.END`.
Because `Op` is an `IntEnum`, a pushed number with the same encoding compares equal. -/
def slotEqOp (c : PyVal) (o : Op) : Bool := pyEq c (.op o)

/-- Python truthiness of the values in play: non-zero numbers and `True`. -/
def truthy (v : PyVal) : Bool := v.toRat ≠ 0

/-- Integer value used by Python `+` when no float is involved
(ints, bools and `IntEnum` members all add as integers).  The `float`
case is never consulted by `pyAdd`. -/
def PyVal.intVal : PyVal → Int
  | .op o => o.toInt
  | .int n => n
  | .float _ => 0
  | .bool b => if b then 1 else 0

/-- Python `a + b` for the values in play: any float operand gives a float,
otherwise integer addition. -/
def pyAdd (a b : PyVal) : PyVal :=
  match a, b with
  | .float x, b => .float (x + b.toRat)
  | a, .float y => .float (a.toRat + y)
  | a, b => .int (a.intVal + b.intVal)

/-- The VM state of `class Vm`: a program, an operand stack (head = top),
and the instruction pointer. -/
structure Vm where
  program : List PyVal
  stack : List PyVal
  ip : Nat
deriving DecidableEq, Repr

/-- The exceptions `main.py` can raise, one constructor per raise site. -/
inductive Err where
  | stackUnderflow
  | indexError
  | ifRequiresEnd
  | elseRequiresIf
  | whileRequiresEnd
  | endRequiresBlock
  | assertUnreachable
  | unknownWord (w : String)
  | invalidFormat
  | invalidVersion
  | eofError
  | typeError
deriving DecidableEq, Repr

/-- Outcome of a (partial) execution: normal completion or an exception,
in both cases with the final VM state and the values printed so far. -/
inductive Res where
  | ok (s : Vm) (out : List PyVal)
  | err (e : Err) (s : Vm) (out : List PyVal)
deriving DecidableEq, Repr

/-- `Vm.current_op`: read the slot under the instruction pointer
(`none` = Python `IndexError`). -/
def currentSlot (s : Vm) : Option PyVal := s.program.get? s.ip

/-- The membership test `Op.END in self.program[self.ip:]` (Python `in` uses `==`,
so any slot whose numeric value is 7 counts). -/
def endLikeIn (l : List PyVal) : Bool := l.any (fun c => slotEqOp c Op.END)

/-- Loop body of `Vm.skip_until`: advance until the current slot compares
equal to `target`, raising `IndexError` when the pointer leaves the program.
The counter `n` only bounds the recursion; the wrapper passes enough. -/
def skipGo : Nat → Vm → Op → Except Err Vm
  | 0, _, _ => .error .indexError
  | n + 1, s, target =>
    match currentSlot s with
    | none => .error .indexError
    | some c =>
      if slotEqOp c target then .ok s
      else skipGo n { s with ip := s.ip + 1 } target

/-- `Vm.skip_until`: `while self.current_op() != op: self.ip += 1`. -/
def skipUntil (s : Vm) (target : Op) : Except Err Vm :=
  skipGo (s.program.length + 1 - s.ip) s target

/-- Which loop of `Vm.execute_op` the interpreter is currently running:
the dispatcher itself, the `if`-true-branch loop, the `if`-false-branch
scan loop, the `else`-branch execution loop, or the `while cond:` loop
(with its captured `cond` value and recorded body start `while_ip`). -/
inductive Mode where
  | execOp
  | ifTrue
  | ifFalseScan
  | ifFalseExec
  | whileLoop (cond : PyVal) (whileIp : Nat)
deriving DecidableEq, Repr

/-- Fueled interpreter for `Vm.execute_op` and its inner loops.  Each
`Mode` branch is a line-by-line transcription of the corresponding piece
of the Python source; `out` accumulates the values printed by `Dump`.
`none` means the fuel ran out (the source can genuinely diverge). -/
def step : Nat → Mode → Vm → List PyVal → Option Res
  | 0, _, _, _ => none
  | fuel + 1, mode, s, out =>
    match mode with
    | Mode.execOp =>
      -- op = self.current_op()
      match currentSlot s with
      | none => some (Res.err Err.indexError s out)
      | some op =>
        if slotEqOp op Op.PUSH then
          -- self.ip += 1; self.stack.append(self.current_op())
          let s1 : Vm := { s with ip := s.ip + 1 }
          match currentSlot s1 with
          | none => some (Res.err Err.indexError s1 out)
          | some v => some (Res.ok { s1 with stack := v :: s1.stack, ip := s1.ip + 1 } out)
        else if slotEqOp op Op.ADD then
          -- b = self.stack.pop(); a = self.stack.pop(); self.stack.append(a + b)
          match s.stack with
          | b :: a :: rest => some (Res.ok { s with stack := pyAdd a b :: rest, ip := s.ip + 1 } out)
          | _ :: [] => some (Res.err Err.stackUnderflow { s with stack := [] } out)
          | [] => some (Res.err Err.stackUnderflow s out)
        else if slotEqOp op Op.EQUALS then
          -- b = self.stack.pop(); a = self.stack.pop(); self.stack.append(a == b)
          match s.stack with
          | b :: a :: rest =>
            some (Res.ok { s with stack := PyVal.bool (pyEq a b) :: rest, ip := s.ip + 1 } out)
          | _ :: [] => some (Res.err Err.stackUnderflow { s with stack := [] } out)
          | [] => some (Res.err Err.stackUnderflow s out)
        else if slotEqOp op Op.IF then
          -- if not Op.END in self.program[self.ip:]: raise
          if endLikeIn (s.program.drop s.ip) then
            -- cond = self.stack.pop()
            match s.stack with
            | [] => some (Res.err Err.stackUnderflow s out)
            | c :: rest =>
              if truthy c then
                -- self.ip += 1; while self.current_op() != Op.END: ...
                match step fuel Mode.ifTrue { s with stack := rest, ip := s.ip + 1 } out with
                | some (Res.ok s1 out1) => some (Res.ok { s1 with ip := s1.ip + 1 } out1)
                | r => r
              else
                -- while self.current_op() != Op.END: self.ip += 1; ...
                match step fuel Mode.ifFalseScan { s with stack := rest } out with
                | some (Res.ok s1 out1) => some (Res.ok { s1 with ip := s1.ip + 1 } out1)
                | r => r
          else some (Res.err Err.ifRequiresEnd s out)
        else if slotEqOp op Op.ELSE then
          some (Res.err Err.elseRequiresIf s out)
        else if slotEqOp op Op.WHILE then
          -- if not Op.END in self.program[self.ip:]: raise
          if endLikeIn (s.program.drop s.ip) then
            -- cond = self.stack.pop(); self.ip += 1; while_ip = self.ip
            match s.stack with
            | [] => some (Res.err Err.stackUnderflow s out)
            | c :: rest =>
              let s1 : Vm := { s with stack := rest, ip := s.ip + 1 }
              match step fuel (Mode.whileLoop c s1.ip) s1 out with
              | some (Res.ok s2 out2) => some (Res.ok { s2 with ip := s2.ip + 1 } out2)
              | r => r
          else some (Res.err Err.whileRequiresEnd s out)
        else if slotEqOp op Op.END then
          some (Res.err Err.endRequiresBlock s out)
        else if slotEqOp op Op.DUMP then
          -- x = self.stack.pop(); print(x)
          match s.stack with
          | x :: rest => some (Res.ok { s with stack := rest, ip := s.ip + 1 } (out ++ [x]))
          | [] => some (Res.err Err.stackUnderflow s out)
        else some (Res.err Err.assertUnreachable s out)
    | Mode.ifTrue =>
      -- while self.current_op() != Op.END:
      match currentSlot s with
      | none => some (Res.err Err.indexError s out)
      | some c =>
        if slotEqOp c Op.END then some (Res.ok s out)
        else if slotEqOp c Op.ELSE then
          -- self.skip_until(Op.END)
          match skipUntil s Op.END with
          | .error e => some (Res.err e s out)
          | .ok s1 => step fuel Mode.ifTrue s1 out
        else
          -- self.execute_op()
          match step fuel Mode.execOp s out with
          | some (Res.ok s1 out1) => step fuel Mode.ifTrue s1 out1
          | r => r
    | Mode.ifFalseScan =>
      -- while self.current_op() != Op.END:
      match currentSlot s with
      | none => some (Res.err Err.indexError s out)
      | some c =>
        if slotEqOp c Op.END then some (Res.ok s out)
        else
          -- self.ip += 1; if self.current_op() == Op.ELSE:
          let s1 : Vm := { s with ip := s.ip + 1 }
          match currentSlot s1 with
          | none => some (Res.err Err.indexError s1 out)
          | some c1 =>
            if slotEqOp c1 Op.ELSE then
              -- self.ip += 1; while self.current_op() != Op.END: self.execute_op()
              match step fuel Mode.ifFalseExec { s1 with ip := s1.ip + 1 } out with
              | some (Res.ok s2 out2) => step fuel Mode.ifFalseScan s2 out2
              | r => r
            else step fuel Mode.ifFalseScan s1 out
    | Mode.ifFalseExec =>
      -- while self.current_op() != Op.END: self.execute_op()
      match currentSlot s with
      | none => some (Res.err Err.indexError s out)
      | some c =>
        if slotEqOp c Op.END then some (Res.ok s out)
        else
          match step fuel Mode.execOp s out with
          | some (Res.ok s1 out1) => step fuel Mode.ifFalseExec s1 out1
          | r => r
    | Mode.whileLoop cond whileIp =>
      -- while cond:  (cond is never reassigned in the source)
      if truthy cond then
        -- if self.current_op() == Op.END: self.ip = while_ip
        match currentSlot s with
        | none => some (Res.err Err.indexError s out)
        | some c =>
          let s1 : Vm := if slotEqOp c Op.END then { s with ip := whileIp } else s
          -- self.execute_op()
          match step fuel Mode.execOp s1 out with
          | some (Res.ok s2 out2) => step fuel (Mode.whileLoop cond whileIp) s2 out2
          | r => r
      else
        -- self.skip_until(Op.END)
        match skipUntil s Op.END with
        | .error e => some (Res.err e s out)
        | .ok s1 => some (Res.ok s1 out)

/-- `Vm.execute`: `while self.ip < len(self.program): self.execute_op()`. -/
def execute : Nat → Vm → List PyVal → Option Res
  | 0, _, _ => none
  | fuel + 1, s, out =>
    if s.ip < s.program.length then
      match step fuel Mode.execOp s out with
      | some (Res.ok s1 out1) => execute fuel s1 out1
      | r => r
    else some (Res.ok s out)

/-- Run a program from instruction pointer 0 on a given initial stack. -/
def runProgram (fuel : Nat) (p : List PyVal) (stack : List PyVal) : Option Res :=
  execute fuel ⟨p, stack, 0⟩ []

/-- Bound guaranteed on the pointer by a normal return of `step`: the
inner loops stop on an in-range slot (their exit reads it), and the
dispatcher's trailing `self.ip += 1` lands at most one past the end. -/
def okBound : Mode → Vm → Prop
  | Mode.execOp, s => s.ip ≤ s.program.length
  | _, s => s.ip < s.program.length

/-- Whitespace characters Python's `int()` / `float()` strip from a literal. -/
def isPySpace (c : Char) : Bool :=
  c == ' ' || c == '\t' || c == '\n' || c == '\r' || c == '\x0b' || c == '\x0c'

/-- Strip leading and trailing whitespace, as Python numeric parsing does. -/
def pyStrip (w : String) : List Char :=
  ((w.toList.dropWhile isPySpace).reverse.dropWhile isPySpace).reverse

/-- Value of a non-empty all-digit character list, else `none`. -/
def digitsVal (cs : List Char) : Option Nat :=
  if cs ≠ [] ∧ cs.all Char.isDigit then
    some (cs.foldl (fun acc c => 10 * acc + (c.toNat - 48)) 0)
  else none

/-- Value of a possibly empty all-digit list (used for the two halves of a
float mantissa, where one side of the dot may be empty). -/
def digitsValD (cs : List Char) : Nat :=
  cs.foldl (fun acc c => 10 * acc + (c.toNat - 48)) 0

/-- Consume an optional leading sign; returns (negative?, rest). -/
def splitSign : List Char → Bool × List Char
  | '-' :: cs => (true, cs)
  | '+' :: cs => (false, cs)
  | cs => (false, cs)

/-- Python `int(word)` on the decimal grammar: optional surrounding
whitespace, optional sign, non-empty digit string.  (Digit-group
underscores and non-ASCII digits are out of scope.) -/
def pyParseInt (w : String) : Option Int :=
  let (neg, cs) := splitSign (pyStrip w)
  (digitsVal cs).map (fun n => if neg then -(n : Int) else (n : Int))

/-- Mantissa of a Python float literal: `digits`, `digits.`, `.digits`
or `digits.digits` (at least one digit overall, at most one dot). -/
def parseMantissa (cs : List Char) : Option ℚ :=
  match cs.span (fun c => c != '.') with
  | (intPart, []) => (digitsVal intPart).map (fun n => (n : ℚ))
  | (intPart, _dot :: fracPart) =>
    if fracPart.contains '.' then none
    else if intPart = [] ∧ fracPart = [] then none
    else if intPart.all Char.isDigit ∧ fracPart.all Char.isDigit then
      some ((digitsValD intPart : ℚ) + (digitsValD fracPart : ℚ) / (10 : ℚ) ^ fracPart.length)
    else none

/-- Exponent part after `e`/`E`: optional sign, non-empty digits. -/
def parseExp (cs : List Char) : Option Int :=
  let (neg, cs1) := splitSign cs
  (digitsVal cs1).map (fun n => if neg then -(n : Int) else (n : Int))

/-- Python `float(word)` on the finite decimal grammar: optional
surrounding whitespace, optional sign, mantissa, optional exponent.
(`inf`/`nan` spellings and overflow to infinity are out of scope; the
value is kept exact as a rational.) -/
def pyParseFloat (w : String) : Option ℚ :=
  let (neg, cs) := splitSign (pyStrip w)
  let signed : ℚ → ℚ := fun q => if neg then -q else q
  match cs.span (fun c => c != 'e' && c != 'E') with
  | (mant, []) => (parseMantissa mant).map signed
  | (mant, _e :: ecs) =>
    match parseMantissa mant, parseExp ecs with
    | some q, some e =>
      some (if 0 ≤ e then signed q * (10 : ℚ) ^ e.toNat else signed q / (10 : ℚ) ^ (-e).toNat)
    | _, _ => none

/-- Loop body of `lex`: fold the token list into the flat program,
appending the opcode (and, for `Push`, the operand as its own slot).
An unknown word aborts with the whole partial program discarded. -/
def lexWords : List String → List PyVal → Except Err (List PyVal)
  | [], program => .ok program
  | word :: ws, program =>
    if word = "+" then lexWords ws (program ++ [.op .ADD])
    else if word = "." then lexWords ws (program ++ [.op .DUMP])
    else if word = "=" then lexWords ws (program ++ [.op .EQUALS])
    else if word = "if" then lexWords ws (program ++ [.op .IF])
    else if word = "else" then lexWords ws (program ++ [.op .ELSE])
    else if word = "while" then lexWords ws (program ++ [.op .WHILE])
    else if word = "end" then lexWords ws (program ++ [.op .END])
    else
      match pyParseInt word with
      | some n => lexWords ws (program ++ [.op .PUSH, .int n])
      | none =>
        match pyParseFloat word with
        | some q => lexWords ws (program ++ [.op .PUSH, .float q])
        | none => .error (.unknownWord word)

/-- Splitter with Python `str.split(sep)` semantics on character lists:
every character satisfying `p` separates, empty pieces are kept
(the source drops them afterwards with its `len(word) > 0` filter). -/
def splitOnP (p : Char → Bool) : List Char → List (List Char)
  | [] => [[]]
  | c :: cs =>
    let r := splitOnP p cs
    if p c then [] :: r
    else
      match r with
      | [] => [[c]]
      | w :: ws => (c :: w) :: ws

/-- The word list `lex` iterates over: `code.split(' ')` with empty words
dropped.  Only the space character separates. -/
def lexSplit (code : String) : List String :=
  ((splitOnP (fun c => c == ' ') code.toList).map (fun cs => String.mk cs)).filter
    (fun w => w.length > 0)

/-- `lex`: split the source on the space character (`code.split(' ')`),
drop empty words, and translate each word. -/
def lex (code : String) : Except Err (List PyVal) :=
  lexWords (lexSplit code) []

/-- Per-token translation, written from the spec's words: the fixed
keyword table, then an integer literal, then a float literal, else an
"unknown token" failure. -/
def tokenToSlots (word : String) : Except Err (List PyVal) :=
  if word = "+" then .ok [.op .ADD]
  else if word = "." then .ok [.op .DUMP]
  else if word = "=" then .ok [.op .EQUALS]
  else if word = "if" then .ok [.op .IF]
  else if word = "else" then .ok [.op .ELSE]
  else if word = "while" then .ok [.op .WHILE]
  else if word = "end" then .ok [.op .END]
  else
    match pyParseInt word with
    | some n => .ok [.op .PUSH, .int n]
    | none =>
      match pyParseFloat word with
      | some q => .ok [.op .PUSH, .float q]
      | none => .error (.unknownWord word)

/-- Modelled from the spec (amended reading): lexing as splitting on the
space character, dropping empty tokens, translating every token by the
fixed table, all-or-nothing. -/
def lexSpec (code : String) : Except Err (List PyVal) :=
  ((lexSplit code).mapM tokenToSlots).map List.flatten

/-- Modelled from the spec (claim C6 as stated): identical to `lexSpec`
except that ANY whitespace character separates tokens. -/
def lexClaimed (code : String) : Except Err (List PyVal) :=
  ((((splitOnP isPySpace code.toList).map (fun cs => String.mk cs)).filter
      (fun w => w.length > 0)).mapM tokenToSlots).map List.flatten

/-- The format tag `STACK_MAGIC = 0x535441434b`. -/
def STACK_MAGIC : Int := 0x535441434b

/-- The schema version `STACK_VERSION = 1.0` (a Python float). -/
def STACK_VERSION : ℚ := 1

/-- A pickled record as it appears in a compiled file: either a scalar
value or a list of program slots. -/
inductive PyObj where
  | val (v : PyVal)
  | list (l : List PyVal)
deriving DecidableEq, Repr

/-- Python `==` between a pickled record and a scalar (a list never
equals a number). -/
def pyObjEqVal : PyObj → PyVal → Bool
  | .val v, w => pyEq v w
  | .list _, _ => false

/-- `Vm.save_to_file`: pickle the magic tag, the version, then the program. -/
def save_to_file (program : List PyVal) : List PyObj :=
  [.val (.int STACK_MAGIC), .val (.float STACK_VERSION), .list program]

/-- `Vm.load_from_file`: unpickle and check the magic tag, then the
version, then read the program record; missing records are `EOFError`. -/
def load_from_file (file : List PyObj) : Except Err PyObj :=
  match file with
  | [] => .error .eofError
  | magic :: rest =>
    if pyObjEqVal magic (.int STACK_MAGIC) then
      match rest with
      | [] => .error .eofError
      | version :: rest2 =>
        if pyObjEqVal version (.float STACK_VERSION) then
          match rest2 with
          | [] => .error .eofError
          | prog :: _ => .ok prog
        else .error .invalidVersion
    else .error .invalidFormat

/-- The `execute` subcommand: load a compiled file into a fresh VM and
run it.  A non-list program record would make Python's `len(self.program)`
raise `TypeError` before any instruction runs. -/
def executeCommand (fuel : Nat) (file : List PyObj) : Option Res :=
  match load_from_file file with
  | .error e => some (Res.err e ⟨[], [], 0⟩ [])
  | .ok (.list p) => execute fuel ⟨p, [], 0⟩ []
  | .ok (.val _) => some (Res.err Err.typeError ⟨[], [], 0⟩ [])

/-- One iteration of `repl`: lex the line and run it against the shared
stack.  Returns the stack retained for the next prompt and the error
printed, if any; `none` when the fuel ran out.  On an execution error
the retained stack is the one the failing run left behind (`vm.stack`
aliases the shared list, so mutations made before the raise persist). -/
def replLine (fuel : Nat) (stack : List PyVal) (line : String) :
    Option (List PyVal × Option Err) :=
  match lex line with
  | .error e => some (stack, some e)
  | .ok program =>
    match execute fuel ⟨program, stack, 0⟩ [] with
    | some (Res.ok s1 _) => some (s1.stack, none)
    | some (Res.err e s1 _) => some (s1.stack, some e)
    | none => none

deriving instance DecidableEq for Except

/-! ### Basic lemmas about the embedding -/

/-- The source's sanity assertion: `assert Op.COUNT == 8`. -/
theorem op_count_is_eight : Op.COUNT.toInt = 8 := rfl

theorem slotEqOp_true_iff {c : PyVal} {o : Op} :
    slotEqOp c o = true ↔ c.toRat = (o.toInt : ℚ) := by
  simp [slotEqOp, pyEq, PyVal.toRat]

theorem Op.toInt_injective : Function.Injective Op.toInt := by
  intro a b h
  cases a <;> cases b <;> first | rfl | simp [Op.toInt] at h

/-- A slot that compares equal to one opcode compares unequal to every other. -/
theorem slotEq_unique {c : PyVal} {o o' : Op} (h : slotEqOp c o = true) (hne : o ≠ o') :
    slotEqOp c o' = false := by
  rw [slotEqOp_true_iff] at h
  rw [Bool.eq_false_iff]
  intro h'
  rw [slotEqOp_true_iff] at h'
  exact hne (Op.toInt_injective (by exact_mod_cast h.symm.trans h'))

theorem currentSlot_lt {s : Vm} {c : PyVal} (h : currentSlot s = some c) :
    s.ip < s.program.length := by
  unfold currentSlot at h
  obtain ⟨h1, -⟩ := List.get?_eq_some.mp h
  exact h1

theorem currentSlot_none {s : Vm} (h : s.program.length ≤ s.ip) :
    currentSlot s = none := by
  unfold currentSlot
  exact List.get?_eq_none.mpr h

/-- A successful `skip_until` leaves the stack and the program untouched and
parks the pointer on a slot that compares equal to the target (hence in range). -/
theorem skipGo_ok : ∀ (n : Nat) (s : Vm) (t : Op) (s1 : Vm),
    skipGo n s t = .ok s1 →
    s1.stack = s.stack ∧ s1.program = s.program ∧
      ∃ c, currentSlot s1 = some c ∧ slotEqOp c t = true := by
  intro n
  induction n with
  | zero => intro s t s1 h; simp [skipGo] at h
  | succ n ih =>
    intro s t s1 h
    rw [skipGo] at h
    cases hc : currentSlot s with
    | none => simp [hc] at h
    | some c =>
      simp only [hc] at h
      by_cases he : slotEqOp c t = true
      · rw [if_pos he] at h
        cases h
        exact ⟨rfl, rfl, c, hc, he⟩
      · rw [if_neg he] at h
        obtain ⟨h1, h2, h3⟩ := ih _ t s1 h
        exact ⟨h1, h2, h3⟩

theorem skipUntil_ok {s : Vm} {t : Op} {s1 : Vm} (h : skipUntil s t = .ok s1) :
    s1.stack = s.stack ∧ s1.program = s.program ∧
      ∃ c, currentSlot s1 = some c ∧ slotEqOp c t = true :=
  skipGo_ok _ s t s1 h

theorem skipUntil_ok_lt {s : Vm} {t : Op} {s1 : Vm} (h : skipUntil s t = .ok s1) :
    s1.ip < s1.program.length := by
  obtain ⟨-, -, c, hc, -⟩ := skipUntil_ok h
  exact currentSlot_lt hc

theorem step_ok_bound : ∀ (fuel : Nat) (mode : Mode) (s : Vm) (out : List PyVal)
    (s1 : Vm) (out1 : List PyVal),
    step fuel mode s out = some (Res.ok s1 out1) → okBound mode s1 := by
  intro fuel
  induction fuel with
  | zero => intro mode s out s1 out1 h; simp [step] at h
  | succ fuel ih =>
    intro mode s out s1 out1 h
    cases mode with
    | execOp =>
      simp only [step] at h
      cases hc : currentSlot s with
      | none => simp [hc] at h
      | some op =>
        have hlt : s.ip < s.program.length := currentSlot_lt hc
        simp only [hc] at h
        by_cases hPUSH : slotEqOp op Op.PUSH = true
        · rw [if_pos hPUSH] at h
          cases hc2 : currentSlot { s with ip := s.ip + 1 } with
          | none => simp [hc2] at h
          | some v =>
            have hlt2 : s.ip + 1 < s.program.length := currentSlot_lt hc2
            simp only [hc2, Option.some.injEq, Res.ok.injEq] at h
            obtain ⟨h1, -⟩ := h
            subst h1
            show s.ip + 1 + 1 ≤ s.program.length
            omega
        · rw [if_neg hPUSH] at h
          by_cases hADD : slotEqOp op Op.ADD = true
          · rw [if_pos hADD] at h
            cases hst : s.stack with
            | nil => simp [hst] at h
            | cons b tl =>
              cases tl with
              | nil => simp [hst] at h
              | cons a rest =>
                simp only [hst, Option.some.injEq, Res.ok.injEq] at h
                obtain ⟨h1, -⟩ := h
                subst h1
                show s.ip + 1 ≤ s.program.length
                omega
          · rw [if_neg hADD] at h
            by_cases hEQ : slotEqOp op Op.EQUALS = true
            · rw [if_pos hEQ] at h
              cases hst : s.stack with
              | nil => simp [hst] at h
              | cons b tl =>
                cases tl with
                | nil => simp [hst] at h
                | cons a rest =>
                  simp only [hst, Option.some.injEq, Res.ok.injEq] at h
                  obtain ⟨h1, -⟩ := h
                  subst h1
                  show s.ip + 1 ≤ s.program.length
                  omega
            · rw [if_neg hEQ] at h
              by_cases hIF : slotEqOp op Op.IF = true
              · rw [if_pos hIF] at h
                by_cases hend : endLikeIn (s.program.drop s.ip) = true
                · rw [if_pos hend] at h
                  cases hst : s.stack with
                  | nil => simp [hst] at h
                  | cons c0 rest =>
                    simp only [hst] at h
                    by_cases ht : truthy c0 = true
                    · rw [if_pos ht] at h
                      cases hstep : step fuel Mode.ifTrue { s with stack := rest, ip := s.ip + 1 } out with
                      | none => simp [hstep] at h
                      | some r =>
                        cases r with
                        | ok s2 out2 =>
                          simp only [hstep, Option.some.injEq, Res.ok.injEq] at h
                          obtain ⟨h1, -⟩ := h
                          subst h1
                          have hb : s2.ip < s2.program.length :=
                            ih Mode.ifTrue _ out s2 out2 hstep
                          show s2.ip + 1 ≤ s2.program.length
                          omega
                        | err e s2 out2 => simp [hstep] at h
                    · rw [if_neg ht] at h
                      cases hstep : step fuel Mode.ifFalseScan { s with stack := rest } out with
                      | none => simp [hstep] at h
                      | some r =>
                        cases r with
                        | ok s2 out2 =>
                          simp only [hstep, Option.some.injEq, Res.ok.injEq] at h
                          obtain ⟨h1, -⟩ := h
                          subst h1
                          have hb : s2.ip < s2.program.length :=
                            ih Mode.ifFalseScan _ out s2 out2 hstep
                          show s2.ip + 1 ≤ s2.program.length
                          omega
                        | err e s2 out2 => simp [hstep] at h
                · rw [if_neg hend] at h
                  simp at h
              · rw [if_neg hIF] at h
                by_cases hELSE : slotEqOp op Op.ELSE = true
                · rw [if_pos hELSE] at h
                  simp at h
                · rw [if_neg hELSE] at h
                  by_cases hWH : slotEqOp op Op.WHILE = true
                  · rw [if_pos hWH] at h
                    by_cases hend : endLikeIn (s.program.drop s.ip) = true
                    · rw [if_pos hend] at h
                      cases hst : s.stack with
                      | nil => simp [hst] at h
                      | cons c0 rest =>
                        simp only [hst] at h
                        cases hstep : step fuel (Mode.whileLoop c0 (s.ip + 1))
                            { s with stack := rest, ip := s.ip + 1 } out with
                        | none => simp [hstep] at h
                        | some r =>
                          cases r with
                          | ok s2 out2 =>
                            simp only [hstep, Option.some.injEq, Res.ok.injEq] at h
                            obtain ⟨h1, -⟩ := h
                            subst h1
                            have hb : s2.ip < s2.program.length :=
                              ih (Mode.whileLoop c0 (s.ip + 1)) _ out s2 out2 hstep
                            show s2.ip + 1 ≤ s2.program.length
                            omega
                          | err e s2 out2 => simp [hstep] at h
                    · rw [if_neg hend] at h
                      simp at h
                  · rw [if_neg hWH] at h
                    by_cases hEND : slotEqOp op Op.END = true
                    · rw [if_pos hEND] at h
                      simp at h
                    · rw [if_neg hEND] at h
                      by_cases hDUMP : slotEqOp op Op.DUMP = true
                      · rw [if_pos hDUMP] at h
                        cases hst : s.stack with
                        | nil => simp [hst] at h
                        | cons x rest =>
                          simp only [hst, Option.some.injEq, Res.ok.injEq] at h
                          obtain ⟨h1, -⟩ := h
                          subst h1
                          show s.ip + 1 ≤ s.program.length
                          omega
                      · rw [if_neg hDUMP] at h
                        simp at h
    | ifTrue =>
      simp only [step] at h
      cases hc : currentSlot s with
      | none => simp [hc] at h
      | some c =>
        simp only [hc] at h
        by_cases hEnd : slotEqOp c Op.END = true
        · rw [if_pos hEnd] at h
          simp only [Option.some.injEq, Res.ok.injEq] at h
          obtain ⟨h1, -⟩ := h
          subst h1
          exact currentSlot_lt hc
        · rw [if_neg hEnd] at h
          by_cases hElse : slotEqOp c Op.ELSE = true
          · rw [if_pos hElse] at h
            cases hsk : skipUntil s Op.END with
            | error e => simp [hsk] at h
            | ok s2 =>
              simp only [hsk] at h
              exact ih Mode.ifTrue s2 out s1 out1 h
          · rw [if_neg hElse] at h
            cases hstep : step fuel Mode.execOp s out with
            | none => simp [hstep] at h
            | some r =>
              cases r with
              | ok s2 out2 =>
                simp only [hstep] at h
                exact ih Mode.ifTrue s2 out2 s1 out1 h
              | err e s2 out2 => simp [hstep] at h
    | ifFalseScan =>
      simp only [step] at h
      cases hc : currentSlot s with
      | none => simp [hc] at h
      | some c =>
        simp only [hc] at h
        by_cases hEnd : slotEqOp c Op.END = true
        · rw [if_pos hEnd] at h
          simp only [Option.some.injEq, Res.ok.injEq] at h
          obtain ⟨h1, -⟩ := h
          subst h1
          exact currentSlot_lt hc
        · rw [if_neg hEnd] at h
          cases hc2 : currentSlot { s with ip := s.ip + 1 } with
          | none => simp [hc2] at h
          | some c1 =>
            simp only [hc2] at h
            by_cases hElse : slotEqOp c1 Op.ELSE = true
            · rw [if_pos hElse] at h
              cases hstep : step fuel Mode.ifFalseExec { s with ip := s.ip + 1 + 1 } out with
              | none => simp [hstep] at h
              | some r =>
                cases r with
                | ok s2 out2 =>
                  simp only [hstep] at h
                  exact ih Mode.ifFalseScan s2 out2 s1 out1 h
                | err e s2 out2 => simp [hstep] at h
            · rw [if_neg hElse] at h
              exact ih Mode.ifFalseScan { s with ip := s.ip + 1 } out s1 out1 h
    | ifFalseExec =>
      simp only [step] at h
      cases hc : currentSlot s with
      | none => simp [hc] at h
      | some c =>
        simp only [hc] at h
        by_cases hEnd : slotEqOp c Op.END = true
        · rw [if_pos hEnd] at h
          simp only [Option.some.injEq, Res.ok.injEq] at h
          obtain ⟨h1, -⟩ := h
          subst h1
          exact currentSlot_lt hc
        · rw [if_neg hEnd] at h
          cases hstep : step fuel Mode.execOp s out with
          | none => simp [hstep] at h
          | some r =>
            cases r with
            | ok s2 out2 =>
              simp only [hstep] at h
              exact ih Mode.ifFalseExec s2 out2 s1 out1 h
            | err e s2 out2 => simp [hstep] at h
    | whileLoop cond whileIp =>
      simp only [step] at h
      by_cases ht : truthy cond = true
      · rw [if_pos ht] at h
        cases hc : currentSlot s with
        | none => simp [hc] at h
        | some c =>
          simp only [hc] at h
          cases hE : slotEqOp c Op.END with
          | true =>
            simp only [hE, if_true] at h
            cases hstep : step fuel Mode.execOp { s with ip := whileIp } out with
            | none => simp [hstep] at h
            | some r =>
              cases r with
              | ok s2 out2 =>
                simp only [hstep] at h
                exact ih (Mode.whileLoop cond whileIp) s2 out2 s1 out1 h
              | err e s2 out2 => simp [hstep] at h
          | false =>
            simp only [hE, Bool.false_eq_true, if_false] at h
            cases hstep : step fuel Mode.execOp s out with
            | none => simp [hstep] at h
            | some r =>
              cases r with
              | ok s2 out2 =>
                simp only [hstep] at h
                exact ih (Mode.whileLoop cond whileIp) s2 out2 s1 out1 h
              | err e s2 out2 => simp [hstep] at h
      · rw [if_neg ht] at h
        cases hsk : skipUntil s Op.END with
        | error e => simp [hsk] at h
        | ok s2 =>
          simp only [hsk, Option.some.injEq, Res.ok.injEq] at h
          obtain ⟨h1, -⟩ := h
          subst h1
          exact skipUntil_ok_lt hsk

/-- `Vm.execute` preserves the pointer bound and can only terminate
normally with the pointer exactly at the program length. -/
theorem execute_ok_ip : ∀ (fuel : Nat) (s : Vm) (out : List PyVal)
    (s1 : Vm) (out1 : List PyVal), s.ip ≤ s.program.length →
    execute fuel s out = some (Res.ok s1 out1) → s1.ip = s1.program.length := by
  intro fuel
  induction fuel with
  | zero => intro s out s1 out1 hle h; simp [execute] at h
  | succ fuel ih =>
    intro s out s1 out1 hle h
    rw [execute] at h
    by_cases hlt : s.ip < s.program.length
    · rw [if_pos hlt] at h
      cases hstep : step fuel Mode.execOp s out with
      | none => simp [hstep] at h
      | some r =>
        cases r with
        | ok s2 out2 =>
          simp only [hstep] at h
          have hb : s2.ip ≤ s2.program.length :=
            step_ok_bound fuel Mode.execOp s out s2 out2 hstep
          exact ih s2 out2 s1 out1 hb h
        | err e s2 out2 => simp [hstep] at h
    · rw [if_neg hlt] at h
      simp only [Option.some.injEq, Res.ok.injEq] at h
      obtain ⟨h1, -⟩ := h
      subst h1
      omega

/-- The `while cond:` loop of the source with a truthy captured condition
never exits normally: `cond` is never reassigned, so the loop only stops
on an exception (or runs forever). -/
theorem whileLoop_truthy_no_ok : ∀ (fuel : Nat) (cond : PyVal) (whileIp : Nat)
    (s : Vm) (out : List PyVal) (s1 : Vm) (out1 : List PyVal), truthy cond = true →
    step fuel (Mode.whileLoop cond whileIp) s out ≠ some (Res.ok s1 out1) := by
  intro fuel
  induction fuel with
  | zero => intro cond whileIp s out s1 out1 ht h; simp [step] at h
  | succ fuel ih =>
    intro cond whileIp s out s1 out1 ht h
    simp only [step] at h
    rw [if_pos ht] at h
    cases hc : currentSlot s with
    | none => simp [hc] at h
    | some c =>
      simp only [hc] at h
      cases hE : slotEqOp c Op.END with
      | true =>
        simp only [hE, if_true] at h
        cases hstep : step fuel Mode.execOp { s with ip := whileIp } out with
        | none => simp [hstep] at h
        | some r =>
          cases r with
          | ok s2 out2 =>
            simp only [hstep] at h
            exact ih cond whileIp s2 out2 s1 out1 ht h
          | err e s2 out2 => simp [hstep] at h
      | false =>
        simp only [hE, Bool.false_eq_true, if_false] at h
        cases hstep : step fuel Mode.execOp s out with
        | none => simp [hstep] at h
        | some r =>
          cases r with
          | ok s2 out2 =>
            simp only [hstep] at h
            exact ih cond whileIp s2 out2 s1 out1 ht h
          | err e s2 out2 => simp [hstep] at h

/-- Dispatching `If` (with the `End`-existence check passing): exactly the
condition is popped, and control enters the true-branch loop at the slot
after `If`, or the false-branch scan still at `If`, on the popped-off stack. -/
theorem execOp_if_eq (fuel : Nat) (s : Vm) (out : List PyVal) (c cond : PyVal)
    (rest : List PyVal) (hc : currentSlot s = some c) (hIF : slotEqOp c Op.IF = true)
    (hend : endLikeIn (s.program.drop s.ip) = true) (hst : s.stack = cond :: rest) :
    step (fuel + 1) Mode.execOp s out =
      if truthy cond then
        match step fuel Mode.ifTrue { s with stack := rest, ip := s.ip + 1 } out with
        | some (Res.ok s1 out1) => some (Res.ok { s1 with ip := s1.ip + 1 } out1)
        | r => r
      else
        match step fuel Mode.ifFalseScan { s with stack := rest } out with
        | some (Res.ok s1 out1) => some (Res.ok { s1 with ip := s1.ip + 1 } out1)
        | r => r := by
  have h1 : slotEqOp c Op.PUSH = false := slotEq_unique hIF (by decide)
  have h2 : slotEqOp c Op.ADD = false := slotEq_unique hIF (by decide)
  have h3 : slotEqOp c Op.EQUALS = false := slotEq_unique hIF (by decide)
  simp only [step, hc, h1, h2, h3, hIF, hend, hst, Bool.false_eq_true, if_false,
    eq_self_iff_true, if_true]

/-- Dispatching `While` (with the `End`-existence check passing): exactly the
condition is popped, the loop-body start `while_ip = ip + 1` is recorded, and
control enters the `while cond:` loop there on the popped-off stack. -/
theorem execOp_while_eq (fuel : Nat) (s : Vm) (out : List PyVal) (c cond : PyVal)
    (rest : List PyVal) (hc : currentSlot s = some c) (hWH : slotEqOp c Op.WHILE = true)
    (hend : endLikeIn (s.program.drop s.ip) = true) (hst : s.stack = cond :: rest) :
    step (fuel + 1) Mode.execOp s out =
      match step fuel (Mode.whileLoop cond (s.ip + 1)) { s with stack := rest, ip := s.ip + 1 } out with
      | some (Res.ok s1 out1) => some (Res.ok { s1 with ip := s1.ip + 1 } out1)
      | r => r := by
  have h1 : slotEqOp c Op.PUSH = false := slotEq_unique hWH (by decide)
  have h2 : slotEqOp c Op.ADD = false := slotEq_unique hWH (by decide)
  have h3 : slotEqOp c Op.EQUALS = false := slotEq_unique hWH (by decide)
  have h4 : slotEqOp c Op.IF = false := slotEq_unique hWH (by decide)
  have h5 : slotEqOp c Op.ELSE = false := slotEq_unique hWH (by decide)
  simp only [step, hc, h1, h2, h3, h4, h5, hWH, hend, hst, Bool.false_eq_true, if_false,
    eq_self_iff_true, if_true]

/-- With the pointer at or past the end, the dispatcher raises `IndexError`
immediately: instructions are only ever dispatched from in-range positions. -/
theorem execOp_oob (fuel : Nat) (s : Vm) (out : List PyVal)
    (h : s.program.length ≤ s.ip) :
    step (fuel + 1) Mode.execOp s out = some (Res.err Err.indexError s out) := by
  simp only [step, currentSlot_none h]

/-- `If` with no `End`-compatible slot in the rest of the program fails
before popping anything: the machine state is returned untouched. -/
theorem execOp_if_no_end (fuel : Nat) (s : Vm) (out : List PyVal) (c : PyVal)
    (hc : currentSlot s = some c) (hIF : slotEqOp c Op.IF = true)
    (hend : endLikeIn (s.program.drop s.ip) = false) :
    step (fuel + 1) Mode.execOp s out = some (Res.err Err.ifRequiresEnd s out) := by
  have h1 : slotEqOp c Op.PUSH = false := slotEq_unique hIF (by decide)
  have h2 : slotEqOp c Op.ADD = false := slotEq_unique hIF (by decide)
  have h3 : slotEqOp c Op.EQUALS = false := slotEq_unique hIF (by decide)
  simp only [step, hc, h1, h2, h3, hIF, hend, Bool.false_eq_true, if_false,
    eq_self_iff_true, if_true]

/-- `While` with no `End`-compatible slot in the rest of the program fails
before popping anything: the machine state is returned untouched. -/
theorem execOp_while_no_end (fuel : Nat) (s : Vm) (out : List PyVal) (c : PyVal)
    (hc : currentSlot s = some c) (hWH : slotEqOp c Op.WHILE = true)
    (hend : endLikeIn (s.program.drop s.ip) = false) :
    step (fuel + 1) Mode.execOp s out = some (Res.err Err.whileRequiresEnd s out) := by
  have h1 : slotEqOp c Op.PUSH = false := slotEq_unique hWH (by decide)
  have h2 : slotEqOp c Op.ADD = false := slotEq_unique hWH (by decide)
  have h3 : slotEqOp c Op.EQUALS = false := slotEq_unique hWH (by decide)
  have h4 : slotEqOp c Op.IF = false := slotEq_unique hWH (by decide)
  have h5 : slotEqOp c Op.ELSE = false := slotEq_unique hWH (by decide)
  simp only [step, hc, h1, h2, h3, h4, h5, hWH, hend, Bool.false_eq_true, if_false,
    eq_self_iff_true, if_true]

/-- The true-branch loop of `If` stops (normally, state unchanged) when the
current slot compares equal to `End`. -/
theorem ifTrue_end_eq (fuel : Nat) (s : Vm) (out : List PyVal) (c : PyVal)
    (hc : currentSlot s = some c) (hEnd : slotEqOp c Op.END = true) :
    step (fuel + 1) Mode.ifTrue s out = some (Res.ok s out) := by
  simp only [step, hc, hEnd, eq_self_iff_true, if_true]

/-- The true-branch loop of `If`, on meeting `Else`, only skips forward to
`End` (`skip_until`): no else-branch instruction is executed. -/
theorem ifTrue_else_eq (fuel : Nat) (s : Vm) (out : List PyVal) (c : PyVal)
    (hc : currentSlot s = some c) (hEnd : slotEqOp c Op.END = false)
    (hElse : slotEqOp c Op.ELSE = true) :
    step (fuel + 1) Mode.ifTrue s out =
      match skipUntil s Op.END with
      | .error e => some (Res.err e s out)
      | .ok s1 => step fuel Mode.ifTrue s1 out := by
  simp only [step, hc, hEnd, hElse, Bool.false_eq_true, if_false, eq_self_iff_true, if_true]

/-- The true-branch loop of `If` executes the current instruction when it is
neither `End`- nor `Else`-compatible. -/
theorem ifTrue_exec_eq (fuel : Nat) (s : Vm) (out : List PyVal) (c : PyVal)
    (hc : currentSlot s = some c) (hEnd : slotEqOp c Op.END = false)
    (hElse : slotEqOp c Op.ELSE = false) :
    step (fuel + 1) Mode.ifTrue s out =
      match step fuel Mode.execOp s out with
      | some (Res.ok s1 out1) => step fuel Mode.ifTrue s1 out1
      | r => r := by
  simp only [step, hc, hEnd, hElse, Bool.false_eq_true, if_false]

/-- The false-branch scan of `If`: when the slot after the current one is
`Else`-compatible, the pointer advances past it and the else-branch executes
(`ifFalseExec`) until `End`. -/
theorem ifFalseScan_else_eq (fuel : Nat) (s : Vm) (out : List PyVal) (c c1 : PyVal)
    (hc : currentSlot s = some c) (hEnd : slotEqOp c Op.END = false)
    (hc1 : currentSlot { s with ip := s.ip + 1 } = some c1)
    (hElse : slotEqOp c1 Op.ELSE = true) :
    step (fuel + 1) Mode.ifFalseScan s out =
      match step fuel Mode.ifFalseExec { s with ip := s.ip + 1 + 1 } out with
      | some (Res.ok s1 out1) => step fuel Mode.ifFalseScan s1 out1
      | r => r := by
  simp only [step, hc, hEnd, hc1, hElse, Bool.false_eq_true, if_false, eq_self_iff_true, if_true]

/-- The false-branch scan of `If` only moves the pointer (no execution, no
stack or output change) while the next slot is not `Else`-compatible. -/
theorem ifFalseScan_adv_eq (fuel : Nat) (s : Vm) (out : List PyVal) (c c1 : PyVal)
    (hc : currentSlot s = some c) (hEnd : slotEqOp c Op.END = false)
    (hc1 : currentSlot { s with ip := s.ip + 1 } = some c1)
    (hElse : slotEqOp c1 Op.ELSE = false) :
    step (fuel + 1) Mode.ifFalseScan s out =
      step fuel Mode.ifFalseScan { s with ip := s.ip + 1 } out := by
  simp only [step, hc, hEnd, hc1, hElse, Bool.false_eq_true, if_false]

/-- The `while cond:` loop with a falsy captured condition: pure
`skip_until(End)` — no body instruction executes, the stack and the output
are untouched, and no further value is popped. -/
theorem whileLoop_false_eq (fuel : Nat) (cond : PyVal) (whileIp : Nat) (s : Vm)
    (out : List PyVal) (ht : truthy cond = false) :
    step (fuel + 1) (Mode.whileLoop cond whileIp) s out =
      match skipUntil s Op.END with
      | .error e => some (Res.err e s out)
      | .ok s1 => some (Res.ok s1 out) := by
  simp only [step, ht, Bool.false_eq_true, if_false]

/-- The `while cond:` loop with a truthy captured condition, on reaching an
`End`-compatible slot, resets the pointer to the recorded body start and
executes the instruction there. -/
theorem whileLoop_reenter_eq (fuel : Nat) (cond : PyVal) (whileIp : Nat) (s : Vm)
    (out : List PyVal) (c : PyVal) (ht : truthy cond = true)
    (hc : currentSlot s = some c) (hEnd : slotEqOp c Op.END = true) :
    step (fuel + 1) (Mode.whileLoop cond whileIp) s out =
      match step fuel Mode.execOp { s with ip := whileIp } out with
      | some (Res.ok s1 out1) => step fuel (Mode.whileLoop cond whileIp) s1 out1
      | r => r := by
  simp only [step, ht, hc, hEnd, eq_self_iff_true, if_true]

/-- `Add` with fewer than two stacked values raises `IndexError` from
`list.pop` (stack underflow); nothing is pushed and nothing is printed. -/
theorem execOp_add_underflow (fuel : Nat) (s : Vm) (out : List PyVal) (c : PyVal)
    (hc : currentSlot s = some c) (hADD : slotEqOp c Op.ADD = true)
    (hlen : s.stack.length < 2) :
    ∃ s2, step (fuel + 1) Mode.execOp s out = some (Res.err Err.stackUnderflow s2 out) := by
  have h1 : slotEqOp c Op.PUSH = false := slotEq_unique hADD (by decide)
  cases hst : s.stack with
  | nil =>
    exact ⟨s, by simp only [step, hc, h1, hADD, hst, Bool.false_eq_true, if_false,
      eq_self_iff_true, if_true]⟩
  | cons b tl =>
    cases tl with
    | nil =>
      exact ⟨{ s with stack := [] }, by simp only [step, hc, h1, hADD, hst,
        Bool.false_eq_true, if_false, eq_self_iff_true, if_true]⟩
    | cons a rest => rw [hst] at hlen; simp only [List.length_cons] at hlen; omega

/-- `Equals` with fewer than two stacked values raises stack underflow. -/
theorem execOp_equals_underflow (fuel : Nat) (s : Vm) (out : List PyVal) (c : PyVal)
    (hc : currentSlot s = some c) (hEQ : slotEqOp c Op.EQUALS = true)
    (hlen : s.stack.length < 2) :
    ∃ s2, step (fuel + 1) Mode.execOp s out = some (Res.err Err.stackUnderflow s2 out) := by
  have h1 : slotEqOp c Op.PUSH = false := slotEq_unique hEQ (by decide)
  have h2 : slotEqOp c Op.ADD = false := slotEq_unique hEQ (by decide)
  cases hst : s.stack with
  | nil =>
    exact ⟨s, by simp only [step, hc, h1, h2, hEQ, hst, Bool.false_eq_true, if_false,
      eq_self_iff_true, if_true]⟩
  | cons b tl =>
    cases tl with
    | nil =>
      exact ⟨{ s with stack := [] }, by simp only [step, hc, h1, h2, hEQ, hst,
        Bool.false_eq_true, if_false, eq_self_iff_true, if_true]⟩
    | cons a rest => rw [hst] at hlen; simp only [List.length_cons] at hlen; omega

/-- `Dump` with an empty stack raises stack underflow with the state untouched. -/
theorem execOp_dump_underflow (fuel : Nat) (s : Vm) (out : List PyVal) (c : PyVal)
    (hc : currentSlot s = some c) (hD : slotEqOp c Op.DUMP = true)
    (hst : s.stack = []) :
    step (fuel + 1) Mode.execOp s out = some (Res.err Err.stackUnderflow s out) := by
  have h1 : slotEqOp c Op.PUSH = false := slotEq_unique hD (by decide)
  have h2 : slotEqOp c Op.ADD = false := slotEq_unique hD (by decide)
  have h3 : slotEqOp c Op.EQUALS = false := slotEq_unique hD (by decide)
  have h4 : slotEqOp c Op.IF = false := slotEq_unique hD (by decide)
  have h5 : slotEqOp c Op.ELSE = false := slotEq_unique hD (by decide)
  have h6 : slotEqOp c Op.WHILE = false := slotEq_unique hD (by decide)
  have h7 : slotEqOp c Op.END = false := slotEq_unique hD (by decide)
  simp only [step, hc, h1, h2, h3, h4, h5, h6, h7, hD, hst, Bool.false_eq_true, if_false,
    eq_self_iff_true, if_true]

/-- `If` whose `End`-existence check passes but whose stack is empty raises
stack underflow from the condition pop, with the state untouched. -/
theorem execOp_if_underflow (fuel : Nat) (s : Vm) (out : List PyVal) (c : PyVal)
    (hc : currentSlot s = some c) (hIF : slotEqOp c Op.IF = true)
    (hend : endLikeIn (s.program.drop s.ip) = true) (hst : s.stack = []) :
    step (fuel + 1) Mode.execOp s out = some (Res.err Err.stackUnderflow s out) := by
  have h1 : slotEqOp c Op.PUSH = false := slotEq_unique hIF (by decide)
  have h2 : slotEqOp c Op.ADD = false := slotEq_unique hIF (by decide)
  have h3 : slotEqOp c Op.EQUALS = false := slotEq_unique hIF (by decide)
  simp only [step, hc, h1, h2, h3, hIF, hend, hst, Bool.false_eq_true, if_false,
    eq_self_iff_true, if_true]

/-- `While` whose `End`-existence check passes but whose stack is empty
raises stack underflow from the condition pop, with the state untouched. -/
theorem execOp_while_underflow (fuel : Nat) (s : Vm) (out : List PyVal) (c : PyVal)
    (hc : currentSlot s = some c) (hWH : slotEqOp c Op.WHILE = true)
    (hend : endLikeIn (s.program.drop s.ip) = true) (hst : s.stack = []) :
    step (fuel + 1) Mode.execOp s out = some (Res.err Err.stackUnderflow s out) := by
  have h1 : slotEqOp c Op.PUSH = false := slotEq_unique hWH (by decide)
  have h2 : slotEqOp c Op.ADD = false := slotEq_unique hWH (by decide)
  have h3 : slotEqOp c Op.EQUALS = false := slotEq_unique hWH (by decide)
  have h4 : slotEqOp c Op.IF = false := slotEq_unique hWH (by decide)
  have h5 : slotEqOp c Op.ELSE = false := slotEq_unique hWH (by decide)
  simp only [step, hc, h1, h2, h3, h4, h5, hWH, hend, hst, Bool.false_eq_true, if_false,
    eq_self_iff_true, if_true]

/-- One step of `lex`'s loop agrees with the spec's per-token table. -/
theorem lexWords_cons (w : String) (ws : List String) (acc : List PyVal) :
    lexWords (w :: ws) acc =
      match tokenToSlots w with
      | .error e => .error e
      | .ok l => lexWords ws (acc ++ l) := by
  rw [lexWords, tokenToSlots]
  split_ifs <;> try rfl
  cases pyParseInt w with
  | some n => rfl
  | none => cases pyParseFloat w with
    | some q => rfl
    | none => rfl

/-- `lex`'s append-accumulator loop computes the concatenation of the
per-token translations, all-or-nothing. -/
theorem lexWords_eq : ∀ (ws : List String) (acc : List PyVal),
    lexWords ws acc = (ws.mapM tokenToSlots).map (fun ls => acc ++ ls.flatten) := by
  intro ws
  induction ws with
  | nil =>
    intro acc
    simp [lexWords, List.mapM, List.mapM.loop, pure, Except.pure, Except.map]
  | cons w ws ih =>
    intro acc
    rw [lexWords_cons, List.mapM_cons]
    cases ht : tokenToSlots w with
    | error e =>
      simp [ht, Except.map, Except.bind, bind]
    | ok l =>
      simp only [ht]
      rw [ih]
      cases hm : ws.mapM tokenToSlots with
      | error e => simp [hm, Except.map, Except.bind, bind]
      | ok ls =>
        simp [hm, Except.map, Except.bind, bind, pure, Except.pure, List.append_assoc]

/-! ### Claim theorems -/

/-- C1: an `If` whose `End`-existence check passes pops exactly one
condition value; if it is truthy the instructions after `If` are executed
one at a time until the current slot is `End`, an `Else` met in the true
branch causing a `skip_until(End)` that executes nothing (stack and
program untouched); if it is falsy, slots are scanned without executing
until `End`/`Else`, and on `Else` the pointer advances past it and the
else-branch executes until `End`.  In particular
`lex("1 if 2 . else 3 . end")` prints `2` and
`lex("0 if 2 . else 3 . end")` prints `3`. -/
theorem claim1_if_block_semantics :
    (∀ (fuel : Nat) (s : Vm) (out : List PyVal) (c cond : PyVal) (rest : List PyVal),
        currentSlot s = some c → slotEqOp c Op.IF = true →
        endLikeIn (s.program.drop s.ip) = true → s.stack = cond :: rest →
        step (fuel + 1) Mode.execOp s out =
          if truthy cond then
            match step fuel Mode.ifTrue { s with stack := rest, ip := s.ip + 1 } out with
            | some (Res.ok s1 out1) => some (Res.ok { s1 with ip := s1.ip + 1 } out1)
            | r => r
          else
            match step fuel Mode.ifFalseScan { s with stack := rest } out with
            | some (Res.ok s1 out1) => some (Res.ok { s1 with ip := s1.ip + 1 } out1)
            | r => r)
    ∧ (∀ (fuel : Nat) (s : Vm) (out : List PyVal) (c : PyVal),
        currentSlot s = some c → slotEqOp c Op.END = true →
        step (fuel + 1) Mode.ifTrue s out = some (Res.ok s out))
    ∧ (∀ (fuel : Nat) (s : Vm) (out : List PyVal) (c : PyVal),
        currentSlot s = some c → slotEqOp c Op.END = false → slotEqOp c Op.ELSE = true →
        step (fuel + 1) Mode.ifTrue s out =
          match skipUntil s Op.END with
          | .error e => some (Res.err e s out)
          | .ok s1 => step fuel Mode.ifTrue s1 out)
    ∧ (∀ (s s1 : Vm), skipUntil s Op.END = .ok s1 →
        s1.stack = s.stack ∧ s1.program = s.program)
    ∧ (∀ (fuel : Nat) (s : Vm) (out : List PyVal) (c c1 : PyVal),
        currentSlot s = some c → slotEqOp c Op.END = false →
        currentSlot { s with ip := s.ip + 1 } = some c1 → slotEqOp c1 Op.ELSE = true →
        step (fuel + 1) Mode.ifFalseScan s out =
          match step fuel Mode.ifFalseExec { s with ip := s.ip + 1 + 1 } out with
          | some (Res.ok s1 out1) => step fuel Mode.ifFalseScan s1 out1
          | r => r)
    ∧ (lex "1 if 2 . else 3 . end" =
        Except.ok [PyVal.op Op.PUSH, PyVal.int 1, PyVal.op Op.IF, PyVal.op Op.PUSH,
          PyVal.int 2, PyVal.op Op.DUMP, PyVal.op Op.ELSE, PyVal.op Op.PUSH, PyVal.int 3,
          PyVal.op Op.DUMP, PyVal.op Op.END] ∧
       runProgram 64 [PyVal.op Op.PUSH, PyVal.int 1, PyVal.op Op.IF, PyVal.op Op.PUSH,
          PyVal.int 2, PyVal.op Op.DUMP, PyVal.op Op.ELSE, PyVal.op Op.PUSH, PyVal.int 3,
          PyVal.op Op.DUMP, PyVal.op Op.END] [] =
        some (Res.ok ⟨[PyVal.op Op.PUSH, PyVal.int 1, PyVal.op Op.IF, PyVal.op Op.PUSH,
          PyVal.int 2, PyVal.op Op.DUMP, PyVal.op Op.ELSE, PyVal.op Op.PUSH, PyVal.int 3,
          PyVal.op Op.DUMP, PyVal.op Op.END], [], 11⟩ [PyVal.int 2]))
    ∧ (lex "0 if 2 . else 3 . end" =
        Except.ok [PyVal.op Op.PUSH, PyVal.int 0, PyVal.op Op.IF, PyVal.op Op.PUSH,
          PyVal.int 2, PyVal.op Op.DUMP, PyVal.op Op.ELSE, PyVal.op Op.PUSH, PyVal.int 3,
          PyVal.op Op.DUMP, PyVal.op Op.END] ∧
       runProgram 64 [PyVal.op Op.PUSH, PyVal.int 0, PyVal.op Op.IF, PyVal.op Op.PUSH,
          PyVal.int 2, PyVal.op Op.DUMP, PyVal.op Op.ELSE, PyVal.op Op.PUSH, PyVal.int 3,
          PyVal.op Op.DUMP, PyVal.op Op.END] [] =
        some (Res.ok ⟨[PyVal.op Op.PUSH, PyVal.int 0, PyVal.op Op.IF, PyVal.op Op.PUSH,
          PyVal.int 2, PyVal.op Op.DUMP, PyVal.op Op.ELSE, PyVal.op Op.PUSH, PyVal.int 3,
          PyVal.op Op.DUMP, PyVal.op Op.END], [], 11⟩ [PyVal.int 3])) := by
  refine ⟨execOp_if_eq, ifTrue_end_eq, ifTrue_else_eq, ?_, ifFalseScan_else_eq,
    ⟨by decide, by decide⟩, ⟨by decide, by decide⟩⟩
  intro s s1 h
  exact ⟨(skipUntil_ok h).1, (skipUntil_ok h).2.1⟩

/-- Witness for C1: the `If`-dispatch equation applied to the concrete
machine `[If, End]` with stack `[1]`, computing the whole result. -/
theorem claim1_witness :
    step 5 Mode.execOp ⟨[PyVal.op Op.IF, PyVal.op Op.END], [PyVal.int 1], 0⟩ [] =
      some (Res.ok ⟨[PyVal.op Op.IF, PyVal.op Op.END], [], 2⟩ []) := by
  have h := claim1_if_block_semantics.1 4
    ⟨[PyVal.op Op.IF, PyVal.op Op.END], [PyVal.int 1], 0⟩ []
    (PyVal.op Op.IF) (PyVal.int 1) [] (by decide) (by decide) (by decide) rfl
  exact h.trans (by decide)

/-- C2: a `While` whose `End`-existence check passes pops exactly one
condition value and records the slot after `While` as the body start; if
the value is falsy, execution skips (`skip_until`) to the first
`End`-compatible slot without executing anything (stack, program and
output untouched); if it is truthy, whenever an `End`-compatible slot is
reached the pointer is reset to the recorded body start, and since the
captured condition is never re-popped or reassigned, the loop never
terminates normally while it stays truthy. -/
theorem claim2_while_semantics :
    (∀ (fuel : Nat) (s : Vm) (out : List PyVal) (c cond : PyVal) (rest : List PyVal),
        currentSlot s = some c → slotEqOp c Op.WHILE = true →
        endLikeIn (s.program.drop s.ip) = true → s.stack = cond :: rest →
        step (fuel + 1) Mode.execOp s out =
          match step fuel (Mode.whileLoop cond (s.ip + 1))
              { s with stack := rest, ip := s.ip + 1 } out with
          | some (Res.ok s1 out1) => some (Res.ok { s1 with ip := s1.ip + 1 } out1)
          | r => r)
    ∧ (∀ (fuel : Nat) (cond : PyVal) (whileIp : Nat) (s : Vm) (out : List PyVal),
        truthy cond = false →
        step (fuel + 1) (Mode.whileLoop cond whileIp) s out =
          match skipUntil s Op.END with
          | .error e => some (Res.err e s out)
          | .ok s1 => some (Res.ok s1 out))
    ∧ (∀ (fuel : Nat) (cond : PyVal) (whileIp : Nat) (s : Vm) (out : List PyVal) (c : PyVal),
        truthy cond = true → currentSlot s = some c → slotEqOp c Op.END = true →
        step (fuel + 1) (Mode.whileLoop cond whileIp) s out =
          match step fuel Mode.execOp { s with ip := whileIp } out with
          | some (Res.ok s1 out1) => step fuel (Mode.whileLoop cond whileIp) s1 out1
          | r => r)
    ∧ (∀ (s s1 : Vm), skipUntil s Op.END = .ok s1 →
        s1.stack = s.stack ∧ s1.program = s.program)
    ∧ (∀ (fuel : Nat) (cond : PyVal) (whileIp : Nat) (s : Vm) (out : List PyVal)
        (s1 : Vm) (out1 : List PyVal), truthy cond = true →
        step fuel (Mode.whileLoop cond whileIp) s out ≠ some (Res.ok s1 out1)) := by
  refine ⟨execOp_while_eq, whileLoop_false_eq, whileLoop_reenter_eq, ?_, whileLoop_truthy_no_ok⟩
  intro s s1 h
  exact ⟨(skipUntil_ok h).1, (skipUntil_ok h).2.1⟩

/-- Witness for C2: the `While`-dispatch equation applied to the concrete
machine `[While, End]` with stack `[0]`, computing the whole result. -/
theorem claim2_witness :
    step 5 Mode.execOp ⟨[PyVal.op Op.WHILE, PyVal.op Op.END], [PyVal.int 0], 0⟩ [] =
      some (Res.ok ⟨[PyVal.op Op.WHILE, PyVal.op Op.END], [], 2⟩ []) := by
  have h := claim2_while_semantics.1 4
    ⟨[PyVal.op Op.WHILE, PyVal.op Op.END], [PyVal.int 0], 0⟩ []
    (PyVal.op Op.WHILE) (PyVal.int 0) [] (by decide) (by decide) (by decide) rfl
  exact h.trans (by decide)

/-- C3: an `If` (resp. `While`) with no `End`-compatible slot at or after
the current position fails with the structural error `ifRequiresEnd`
(resp. `whileRequiresEnd`) before popping anything: the error carries the
machine state completely unchanged. -/
theorem claim3_missing_end_structural_error :
    (∀ (fuel : Nat) (s : Vm) (out : List PyVal) (c : PyVal),
        currentSlot s = some c → slotEqOp c Op.IF = true →
        endLikeIn (s.program.drop s.ip) = false →
        step (fuel + 1) Mode.execOp s out = some (Res.err Err.ifRequiresEnd s out))
    ∧ (∀ (fuel : Nat) (s : Vm) (out : List PyVal) (c : PyVal),
        currentSlot s = some c → slotEqOp c Op.WHILE = true →
        endLikeIn (s.program.drop s.ip) = false →
        step (fuel + 1) Mode.execOp s out = some (Res.err Err.whileRequiresEnd s out)) :=
  ⟨execOp_if_no_end, execOp_while_no_end⟩

/-- Witness for C3: a lone `If` with a non-empty stack fails with
`ifRequiresEnd` and the stack still holds its value. -/
theorem claim3_witness :
    step 1 Mode.execOp ⟨[PyVal.op Op.IF], [PyVal.int 5], 0⟩ [] =
      some (Res.err Err.ifRequiresEnd ⟨[PyVal.op Op.IF], [PyVal.int 5], 0⟩ []) :=
  claim3_missing_end_structural_error.1 0 ⟨[PyVal.op Op.IF], [PyVal.int 5], 0⟩ []
    (PyVal.op Op.IF) (by decide) (by decide) (by decide)

/-- C4: because a `Push` operand occupies its own program slot and the
block-scanning code compares slots with Python `==` against `IntEnum`
members, a pushed literal `7` (the `End` encoding) satisfies the
`End`-existence check of `If`/`While` by itself, the skip loops
(`skip_until` and the false-branch scan) stop at such an operand slot,
and a pushed `5` (the `Else` encoding) diverts the false-branch scan.
Concretely: `lex("0 if 7 .")` passes the check with no `End` opcode
anywhere; `lex("0 if 7 . end")` stops its scan at the operand slot 4 and
resumes at the `Dump` (underflowing) instead of skipping to the real
`End`; `lex("0 while 7 end")`'s `skip_until` stops on the operand, so the
real `End` is then dispatched and raises; `lex("0 if 5 3 . end")` prints
`3` although the program contains no `Else` instruction. -/
theorem claim4_flat_encoding_hazard :
    (lex "0 if 7 ." = Except.ok [PyVal.op Op.PUSH, PyVal.int 0, PyVal.op Op.IF,
        PyVal.op Op.PUSH, PyVal.int 7, PyVal.op Op.DUMP]
      ∧ PyVal.op Op.END ∉ [PyVal.op Op.PUSH, PyVal.int 0, PyVal.op Op.IF,
        PyVal.op Op.PUSH, PyVal.int 7, PyVal.op Op.DUMP]
      ∧ endLikeIn ([PyVal.op Op.PUSH, PyVal.int 0, PyVal.op Op.IF,
        PyVal.op Op.PUSH, PyVal.int 7, PyVal.op Op.DUMP].drop 2) = true
      ∧ runProgram 64 [PyVal.op Op.PUSH, PyVal.int 0, PyVal.op Op.IF,
        PyVal.op Op.PUSH, PyVal.int 7, PyVal.op Op.DUMP] [] =
        some (Res.err Err.stackUnderflow ⟨[PyVal.op Op.PUSH, PyVal.int 0, PyVal.op Op.IF,
          PyVal.op Op.PUSH, PyVal.int 7, PyVal.op Op.DUMP], [], 5⟩ []))
    ∧ (lex "0 if 7 . end" = Except.ok [PyVal.op Op.PUSH, PyVal.int 0, PyVal.op Op.IF,
        PyVal.op Op.PUSH, PyVal.int 7, PyVal.op Op.DUMP, PyVal.op Op.END]
      ∧ runProgram 64 [PyVal.op Op.PUSH, PyVal.int 0, PyVal.op Op.IF,
        PyVal.op Op.PUSH, PyVal.int 7, PyVal.op Op.DUMP, PyVal.op Op.END] [] =
        some (Res.err Err.stackUnderflow ⟨[PyVal.op Op.PUSH, PyVal.int 0, PyVal.op Op.IF,
          PyVal.op Op.PUSH, PyVal.int 7, PyVal.op Op.DUMP, PyVal.op Op.END], [], 5⟩ []))
    ∧ (lex "0 while 7 end" = Except.ok [PyVal.op Op.PUSH, PyVal.int 0, PyVal.op Op.WHILE,
        PyVal.op Op.PUSH, PyVal.int 7, PyVal.op Op.END]
      ∧ skipUntil ⟨[PyVal.op Op.PUSH, PyVal.int 0, PyVal.op Op.WHILE,
          PyVal.op Op.PUSH, PyVal.int 7, PyVal.op Op.END], [], 3⟩ Op.END =
        Except.ok ⟨[PyVal.op Op.PUSH, PyVal.int 0, PyVal.op Op.WHILE,
          PyVal.op Op.PUSH, PyVal.int 7, PyVal.op Op.END], [], 4⟩
      ∧ [PyVal.op Op.PUSH, PyVal.int 0, PyVal.op Op.WHILE,
          PyVal.op Op.PUSH, PyVal.int 7, PyVal.op Op.END].get? 4 = some (PyVal.int 7)
      ∧ runProgram 64 [PyVal.op Op.PUSH, PyVal.int 0, PyVal.op Op.WHILE,
          PyVal.op Op.PUSH, PyVal.int 7, PyVal.op Op.END] [] =
        some (Res.err Err.endRequiresBlock ⟨[PyVal.op Op.PUSH, PyVal.int 0, PyVal.op Op.WHILE,
          PyVal.op Op.PUSH, PyVal.int 7, PyVal.op Op.END], [], 5⟩ []))
    ∧ (lex "0 if 5 3 . end" = Except.ok [PyVal.op Op.PUSH, PyVal.int 0, PyVal.op Op.IF,
        PyVal.op Op.PUSH, PyVal.int 5, PyVal.op Op.PUSH, PyVal.int 3, PyVal.op Op.DUMP,
        PyVal.op Op.END]
      ∧ PyVal.op Op.ELSE ∉ [PyVal.op Op.PUSH, PyVal.int 0, PyVal.op Op.IF,
        PyVal.op Op.PUSH, PyVal.int 5, PyVal.op Op.PUSH, PyVal.int 3, PyVal.op Op.DUMP,
        PyVal.op Op.END]
      ∧ runProgram 64 [PyVal.op Op.PUSH, PyVal.int 0, PyVal.op Op.IF,
        PyVal.op Op.PUSH, PyVal.int 5, PyVal.op Op.PUSH, PyVal.int 3, PyVal.op Op.DUMP,
        PyVal.op Op.END] [] =
        some (Res.ok ⟨[PyVal.op Op.PUSH, PyVal.int 0, PyVal.op Op.IF,
          PyVal.op Op.PUSH, PyVal.int 5, PyVal.op Op.PUSH, PyVal.int 3, PyVal.op Op.DUMP,
          PyVal.op Op.END], [], 9⟩ [PyVal.int 3])) := by
  decide

/-- C5: `Add` or `Equals` with fewer than two stacked values, `Dump` with
an empty stack, and the condition pop of `If`/`While` (with the
`End`-existence check passing) on an empty stack all fail with the stack
underflow error, never wrapping, defaulting or silently no-opping; in
particular executing `lex("if 1 . end")` on an empty stack underflows. -/
theorem claim5_stack_underflow :
    (∀ (fuel : Nat) (s : Vm) (out : List PyVal) (c : PyVal),
        currentSlot s = some c → slotEqOp c Op.ADD = true → s.stack.length < 2 →
        ∃ s2, step (fuel + 1) Mode.execOp s out = some (Res.err Err.stackUnderflow s2 out))
    ∧ (∀ (fuel : Nat) (s : Vm) (out : List PyVal) (c : PyVal),
        currentSlot s = some c → slotEqOp c Op.EQUALS = true → s.stack.length < 2 →
        ∃ s2, step (fuel + 1) Mode.execOp s out = some (Res.err Err.stackUnderflow s2 out))
    ∧ (∀ (fuel : Nat) (s : Vm) (out : List PyVal) (c : PyVal),
        currentSlot s = some c → slotEqOp c Op.DUMP = true → s.stack = [] →
        step (fuel + 1) Mode.execOp s out = some (Res.err Err.stackUnderflow s out))
    ∧ (∀ (fuel : Nat) (s : Vm) (out : List PyVal) (c : PyVal),
        currentSlot s = some c → slotEqOp c Op.IF = true →
        endLikeIn (s.program.drop s.ip) = true → s.stack = [] →
        step (fuel + 1) Mode.execOp s out = some (Res.err Err.stackUnderflow s out))
    ∧ (∀ (fuel : Nat) (s : Vm) (out : List PyVal) (c : PyVal),
        currentSlot s = some c → slotEqOp c Op.WHILE = true →
        endLikeIn (s.program.drop s.ip) = true → s.stack = [] →
        step (fuel + 1) Mode.execOp s out = some (Res.err Err.stackUnderflow s out))
    ∧ (lex "if 1 . end" = Except.ok [PyVal.op Op.IF, PyVal.op Op.PUSH, PyVal.int 1,
        PyVal.op Op.DUMP, PyVal.op Op.END]
      ∧ runProgram 64 [PyVal.op Op.IF, PyVal.op Op.PUSH, PyVal.int 1,
        PyVal.op Op.DUMP, PyVal.op Op.END] [] =
        some (Res.err Err.stackUnderflow ⟨[PyVal.op Op.IF, PyVal.op Op.PUSH, PyVal.int 1,
          PyVal.op Op.DUMP, PyVal.op Op.END], [], 0⟩ [])) :=
  ⟨execOp_add_underflow, execOp_equals_underflow, execOp_dump_underflow,
    execOp_if_underflow, execOp_while_underflow, by decide, by decide⟩

/-- Witness for C5: the `If`-condition-pop clause applied to the concrete
machine `[If, End]` with an empty stack. -/
theorem claim5_witness :
    step 1 Mode.execOp ⟨[PyVal.op Op.IF, PyVal.op Op.END], [], 0⟩ [] =
      some (Res.err Err.stackUnderflow ⟨[PyVal.op Op.IF, PyVal.op Op.END], [], 0⟩ []) :=
  claim5_stack_underflow.2.2.2.1 0 ⟨[PyVal.op Op.IF, PyVal.op Op.END], [], 0⟩ []
    (PyVal.op Op.IF) (by decide) (by decide) (by decide) rfl

/-- C6 counterexample: the claim says any whitespace character separates
tokens, but `lex` splits on the space character only — on the source text
`"1\t2"` (a tab between two digits) the claimed behaviour yields the
program `[Push 1, Push 2]` while the code fails with an unknown-token
error for the single word `"1\t2"`. -/
theorem claim6_counterexample :
    lex "1\t2" = Except.error (Err.unknownWord "1\t2") ∧
    lexClaimed "1\t2" =
      Except.ok [PyVal.op Op.PUSH, PyVal.int 1, PyVal.op Op.PUSH, PyVal.int 2] := by
  decide

/-- C6 (amended): for every source text, `lex` splits on the SPACE
character only (empty tokens dropped), maps each token by the fixed
keyword table, attempts any other token as an integer then as a float in
that order yielding a `Push`, and fails all-or-nothing with an
unknown-token error otherwise — i.e. it agrees with the spec-side
`lexSpec` on every input. -/
theorem claim6_lex_table : ∀ (code : String), lex code = lexSpec code := by
  intro code
  rw [lex, lexSpec, lexWords_eq]
  cases hm : (lexSplit code).mapM tokenToSlots with
  | error e => simp [hm, Except.map]
  | ok ls => simp [hm, Except.map]

/-- Loading a stream whose first record does not compare equal to the
magic tag fails with the format error, whatever follows. -/
theorem load_bad_magic (m : PyObj) (rest : List PyObj)
    (h : pyObjEqVal m (PyVal.int STACK_MAGIC) = false) :
    load_from_file (m :: rest) = .error .invalidFormat := by
  simp [load_from_file, h]

/-- Loading a stream with a good magic record but a version record that
does not compare equal to 1.0 fails with the version error. -/
theorem load_bad_version (m v : PyObj) (rest2 : List PyObj)
    (h1 : pyObjEqVal m (PyVal.int STACK_MAGIC) = true)
    (h2 : pyObjEqVal v (PyVal.float STACK_VERSION) = false) :
    load_from_file (m :: v :: rest2) = .error .invalidVersion := by
  simp [load_from_file, h1, h2]

/-- C7: serializing any program and deserializing the result recovers a
program with identical instructions in identical order; since `PyVal.int`
and `PyVal.float` are distinct constructors and the recovered list is
structurally equal, each `Push` operand's Number subtype (integer versus
floating point) is preserved per element. -/
theorem claim7_round_trip :
    (∀ (p : List PyVal), load_from_file (save_to_file p) = Except.ok (PyObj.list p))
    ∧ PyVal.int 1 ≠ PyVal.float 1 :=
  ⟨fun _ => rfl, by decide⟩

/-- C8: loading fails with the format error when the magic record does
not match — whatever the rest of the stream holds, so before any
instruction data is read — and with the distinct version error when the
magic matches but the version does not; consequently the `execute`
subcommand on a stream with a corrupted magic tag reports the format
error with no instruction executed and no output produced. -/
theorem claim8_load_checks :
    (∀ (m : PyObj) (rest : List PyObj), pyObjEqVal m (PyVal.int STACK_MAGIC) = false →
        load_from_file (m :: rest) = .error .invalidFormat)
    ∧ (∀ (m v : PyObj) (rest2 : List PyObj), pyObjEqVal m (PyVal.int STACK_MAGIC) = true →
        pyObjEqVal v (PyVal.float STACK_VERSION) = false →
        load_from_file (m :: v :: rest2) = .error .invalidVersion)
    ∧ Err.invalidFormat ≠ Err.invalidVersion
    ∧ (∀ (fuel : Nat) (m : PyObj) (rest : List PyObj),
        pyObjEqVal m (PyVal.int STACK_MAGIC) = false →
        executeCommand fuel (m :: rest) =
          some (Res.err Err.invalidFormat ⟨[], [], 0⟩ [])) := by
  refine ⟨load_bad_magic, load_bad_version, by decide, ?_⟩
  intro fuel m rest h
  simp [executeCommand, load_bad_magic m rest h]

/-- Witness for C8: a zeroed magic record is rejected as a format error,
and the `execute` subcommand on it produces no output. -/
theorem claim8_witness :
    load_from_file [PyObj.val (PyVal.int 0), PyObj.val (PyVal.float 1),
        PyObj.list [PyVal.op Op.DUMP]] = .error .invalidFormat ∧
    executeCommand 64 [PyObj.val (PyVal.int 0), PyObj.val (PyVal.float 1),
        PyObj.list [PyVal.op Op.DUMP]] =
      some (Res.err Err.invalidFormat ⟨[], [], 0⟩ []) :=
  ⟨claim8_load_checks.1 (PyObj.val (PyVal.int 0))
      [PyObj.val (PyVal.float 1), PyObj.list [PyVal.op Op.DUMP]] (by decide),
   claim8_load_checks.2.2.2 64 (PyObj.val (PyVal.int 0))
      [PyObj.val (PyVal.float 1), PyObj.list [PyVal.op Op.DUMP]] (by decide)⟩

/-- C9 counterexample: the claim says a failed line leaves the shared
stack as it was before the line started, but with pre-line stack `[1]`
the line `". +"` first pops and prints the `1` (mutating the shared
stack) and only then underflows on `Add` — the retained stack is `[]`,
not the pre-line `[1]`. -/
theorem claim9_counterexample :
    replLine 64 [PyVal.int 1] ". +" = some ([], some Err.stackUnderflow) ∧
    ([] : List PyVal) ≠ [PyVal.int 1] := by
  decide

/-- C9 (amended): after a failed line the interactive loop retains the
stack exactly as the failing execution left it at the moment the error
was raised — mutations made before the raise persist and are not rolled
back to the pre-line state; only a failure that precedes execution (a
lexing error) is guaranteed to preserve the pre-line stack. -/
theorem claim9_repl_stack_as_left :
    (∀ (fuel : Nat) (stack : List PyVal) (line : String) (e : Err),
        lex line = .error e → replLine fuel stack line = some (stack, some e))
    ∧ (∀ (fuel : Nat) (stack : List PyVal) (line : String) (p : List PyVal)
        (e : Err) (s1 : Vm) (out1 : List PyVal),
        lex line = .ok p → execute fuel ⟨p, stack, 0⟩ [] = some (Res.err e s1 out1) →
        replLine fuel stack line = some (s1.stack, some e)) := by
  constructor
  · intro fuel stack line e h
    simp [replLine, h]
  · intro fuel stack line p e s1 out1 hlex hex
    simp [replLine, hlex, hex]

/-- Witness for C9: the amended statement applied to pre-line stack `[1]`
and the line `". +"`, whose execution fails holding the mutated stack. -/
theorem claim9_witness :
    replLine 64 [PyVal.int 1] ". +" =
      some ((⟨[PyVal.op Op.DUMP, PyVal.op Op.ADD], [], 1⟩ : Vm).stack,
        some Err.stackUnderflow) :=
  claim9_repl_stack_as_left.2 64 [PyVal.int 1] ". +"
    [PyVal.op Op.DUMP, PyVal.op Op.ADD] Err.stackUnderflow
    ⟨[PyVal.op Op.DUMP, PyVal.op Op.ADD], [], 1⟩ [PyVal.int 1] (by decide) (by decide)

/-- C10: instructions are only dispatched with the pointer inside
`[0, len(program))` — at or past the end the dispatcher raises
immediately, touching nothing — a normally completing `execute_op` leaves
the pointer at most at `len(program)`, and a normally terminating
`execute` leaves it exactly at `len(program)`. -/
theorem claim10_ip_invariant :
    (∀ (fuel : Nat) (s : Vm) (out : List PyVal), s.program.length ≤ s.ip →
        step (fuel + 1) Mode.execOp s out = some (Res.err Err.indexError s out))
    ∧ (∀ (fuel : Nat) (s : Vm) (out : List PyVal) (s1 : Vm) (out1 : List PyVal),
        step fuel Mode.execOp s out = some (Res.ok s1 out1) →
        s1.ip ≤ s1.program.length)
    ∧ (∀ (fuel : Nat) (s : Vm) (out : List PyVal) (s1 : Vm) (out1 : List PyVal),
        s.ip ≤ s.program.length → execute fuel s out = some (Res.ok s1 out1) →
        s1.ip = s1.program.length) :=
  ⟨execOp_oob,
   fun fuel s out s1 out1 h => step_ok_bound fuel Mode.execOp s out s1 out1 h,
   execute_ok_ip⟩

/-- Witness for C10: a one-instruction program runs to completion with
the pointer landing exactly at the program length. -/
theorem claim10_witness :
    (⟨[PyVal.op Op.DUMP], [], 1⟩ : Vm).ip =
      (⟨[PyVal.op Op.DUMP], [], 1⟩ : Vm).program.length :=
  claim10_ip_invariant.2.2 3 ⟨[PyVal.op Op.DUMP], [PyVal.int 1], 0⟩ []
    ⟨[PyVal.op Op.DUMP], [], 1⟩ [PyVal.int 1] (by decide) (by decide)
